import Mathlib

/-!
Shallow embedding of the playform terrain-streaming subsystem.

The embedding covers:
* the per-owner LOD demand map (`LODMap`) and its aggregation rule;
* `TerrainGameLoader.re_lod_block` and the rollback logic of
  `TerrainGameLoader.increase_lod` / `decrease_lod`
  (src/src/terrain/terrain_game_loader.rs), with the side effects on the
  physics and GPU-buffer collaborators recorded as an explicit event trace;
* the client update thread (src/client/lib/src/update_thread.rs): the
  surroundings phase with its backpressure and time budget, the
  server-update drain phase, and the three-phase iteration structure;
* the client-to-view update application (src/client/lib/src/view_update.rs).

Machine reads of the wall clock are modelled as an oracle giving the number
of elapsed nanoseconds at each loop iteration; results of external
collaborators (terrain generation, chunk-load attempts) are oracle
functions supplied as parameters.
-/

namespace Playform

/-- Modelled from the spec: the source file lod_map.rs (the LODDemandMap) is
not part of this tree.  The spec defines LOD as the ordered enumeration
Placeholder | LodIndex(k); a numerically lower index is finer detail,
any concrete index is finer than Placeholder. -/
inductive LOD where
  | Placeholder : LOD
  | LodIndex : Nat → LOD
deriving DecidableEq, Repr

/-- Modelled from the spec: the finer of two LODs (finest = lowest concrete
index; any concrete LodIndex is finer than Placeholder). -/
def LOD.finer : LOD → LOD → LOD
  | .Placeholder, b => b
  | .LodIndex i, .Placeholder => .LodIndex i
  | .LodIndex i, .LodIndex j => .LodIndex (min i j)

/-- Modelled from the spec: the delta returned by the demand map when the
aggregate demand changes, carrying the old loaded LOD and the new desired
LOD. -/
structure LodChange where
  loaded : Option LOD
  desired : Option LOD
deriving DecidableEq, Repr

/-- Modelled from the spec: the aggregate (finest) LOD over all owners'
current demands; `none` when there is no demand at all (Placeholder is
finer than no demand, any concrete LodIndex is finer than Placeholder). -/
def aggregate : List (Nat × LOD) → Option LOD
  | [] => none
  | p :: rest =>
    match aggregate rest with
    | none => some p.2
    | some a => some (LOD.finer p.2 a)

/-- Demand recorded for an owner in the per-owner association list. -/
def lookupOwner (owner : Nat) : List (Nat × LOD) → Option LOD
  | [] => none
  | p :: rest => if p.1 = owner then some p.2 else lookupOwner owner rest

/-- Record a demand for an owner: replace the owner's entry if present,
append a new entry otherwise. -/
def setDemand (owner : Nat) (l : LOD) : List (Nat × LOD) → List (Nat × LOD)
  | [] => [(owner, l)]
  | p :: rest => if p.1 = owner then (p.1, l) :: rest else p :: setDemand owner l rest

/-- Withdraw an owner's demand (remove the owner's entry). -/
def removeDemand (owner : Nat) : List (Nat × LOD) → List (Nat × LOD)
  | [] => []
  | p :: rest => if p.1 = owner then rest else p :: removeDemand owner rest

/-- Modelled from the spec: the LODDemandMap state for one chunk — the LOD
each owner currently demands, and the currently loaded LOD for the chunk
(none when unloaded). -/
structure LODMap where
  owner_lods : List (Nat × LOD)
  loaded : Option LOD
deriving DecidableEq, Repr

/-- Modelled from the spec: a fresh demand map with no owners and nothing
loaded. -/
def LODMap.new : LODMap := { owner_lods := [], loaded := none }

/-- Modelled from the spec: `increase_lod(chunk, target_lod, owner)` records
that the owner now wants `target_lod`, recomputes the aggregate, and
returns the owner's previous demand together with a `LodChange` delta when
the aggregate changed (`none` when no loading action is required). -/
def LODMap.increase_lod (m : LODMap) (target : LOD) (owner : Nat) :
    (Option LOD × Option LodChange) × LODMap :=
  let prev := lookupOwner owner m.owner_lods
  let lods := setDemand owner target m.owner_lods
  let newLoaded := aggregate lods
  ((prev,
    if newLoaded = m.loaded then none
    else some { loaded := m.loaded, desired := newLoaded }),
   { owner_lods := lods, loaded := newLoaded })

/-- Modelled from the spec: `decrease_lod(chunk, target_lod, owner)`; a
`none` target means the owner withdraws all demand for the chunk.
Recomputes the aggregate across the remaining owners and returns the delta
when the aggregate changed. -/
def LODMap.decrease_lod (m : LODMap) (target : Option LOD) (owner : Nat) :
    (Option LOD × Option LodChange) × LODMap :=
  let prev := lookupOwner owner m.owner_lods
  let lods :=
    match target with
    | some t => setDemand owner t m.owner_lods
    | none => removeDemand owner m.owner_lods
  let newLoaded := aggregate lods
  ((prev,
    if newLoaded = m.loaded then none
    else some { loaded := m.loaded, desired := newLoaded }),
   { owner_lods := lods, loaded := newLoaded })

/-- One call against the demand map, for stating properties of call
sequences. -/
inductive LodCall where
  | inc (target : LOD) (owner : Nat)
  | dec (target : Option LOD) (owner : Nat)

/-- Apply one call to the demand map, keeping only the resulting state. -/
def applyCall (m : LODMap) : LodCall → LODMap
  | .inc t o => (m.increase_lod t o).2
  | .dec t o => (m.decrease_lod t o).2

/-- Apply a sequence of calls to the demand map. -/
def runCalls (m : LODMap) (calls : List LodCall) : LODMap :=
  calls.foldl applyCall m

/-!
## TerrainGameLoader (src/src/terrain/terrain_game_loader.rs)

`re_lod_block` is embedded for one fixed chunk position.  Its side effects
on the physics and GPU-buffer collaborators are recorded as an explicit
trace of events; a `none` result models a Rust panic (a failed `unwrap`).
-/

/-- A generated terrain block for one chunk at one LOD: the entity ids of
its renderable pieces and, for each physical piece, the entity id paired
with its (opaque) bounds. -/
structure TerrainBlock where
  ids : List Nat
  bounds : List (Nat × Nat)
deriving DecidableEq, Repr

/-- One side effect issued by `re_lod_block` on a collaborator. -/
inductive Event where
  | removePlaceholder
  | physicsRemove (id : Nat)
  | vramSwapRemove (id : Nat)
  | vramFree (lod : Nat)
  | insertPlaceholder
  | physicsInsert (id : Nat)
  | vramPushBlockData (lod : Nat)
  | vramPush (ids : List Nat)
deriving DecidableEq, Repr

/-- Events issued by the unload half of `re_lod_block`. -/
def isUnloadEvent : Event → Bool
  | .removePlaceholder => true
  | .physicsRemove _ => true
  | .vramSwapRemove _ => true
  | .vramFree _ => true
  | _ => false

/-- Events issued by the load half of `re_lod_block`. -/
def isLoadEvent : Event → Bool
  | .insertPlaceholder => true
  | .physicsInsert _ => true
  | .vramPushBlockData _ => true
  | .vramPush _ => true
  | _ => false

/-- The terrain block resident for the chunk at LOD slot `k`:
`blocks` is the chunk's entry in `terrain.all_blocks` (none if absent), and
the per-LOD slot may itself be unpopulated. -/
def residentBlock (blocks : Option (List (Option TerrainBlock))) (k : Nat) :
    Option TerrainBlock :=
  match blocks with
  | none => none
  | some lods =>
    match lods.get? k with
    | none => none
    | some ob => ob

/-- The effects issued when unloading a block at concrete LOD `k`: for
every entity id, the physics shape removal and the GPU-buffer swap_remove,
followed by freeing the block's backing storage. -/
def unloadEventsOf (block : TerrainBlock) (k : Nat) : List Event :=
  (block.ids.flatMap fun id => [Event.physicsRemove id, Event.vramSwapRemove id])
    ++ [Event.vramFree k]

/-- The closure `re_lod_block` runs on the generated block at concrete LOD
`k`: insert a physics shape for every bound, then — unless the block is
empty — push its block data and vertex data into the GPU buffers; the
flag is the success of the GPU push. -/
def loadEventsOf (block : TerrainBlock) (k : Nat) (pushOk : Bool) :
    Bool × List Event :=
  let physEvents := block.bounds.map fun p => Event.physicsInsert p.1
  if block.ids.isEmpty then (true, physEvents)
  else (pushOk, physEvents ++ [Event.vramPushBlockData k, Event.vramPush block.ids])

/-- The `texture_generators` array holds exactly 4 generators
(terrain_game_loader.rs, the four `TerrainTextureGenerator::new` entries);
the load branch indexes it with the desired LodIndex, which panics for
indices ≥ 4. -/
def NUM_TEXTURE_GENERATORS : Nat := 4

/-- `TerrainGameLoader::re_lod_block`: unload whatever is loaded, then load
whatever should be loaded, returning the success flag and the trace of
collaborator effects.  `blocks` is the chunk's entry in
`terrain.all_blocks`; `gen k` is the block produced for LOD `k` by the
generation collaborator (modelled from the spec: `Terrain::load` is not
part of this tree; the spec treats generation as a synchronous call
returning a TerrainBlock, on which the loader's closure runs); `pushOk` is
the result of the GPU-buffer `push` (false = rejected for capacity).
A `none` result models a Rust panic: a failed `unwrap` in the unload
branch, or the out-of-bounds index `texture_generators[new_lod]` in the
load branch when the desired LodIndex is ≥ `NUM_TEXTURE_GENERATORS`. -/
def re_lod_block (blocks : Option (List (Option TerrainBlock)))
    (gen : Nat → TerrainBlock) (pushOk : Bool)
    (loaded_lod new_lod : Option LOD) : Option (Bool × List Event) :=
  let unloadEvents : Option (List Event) :=
    match loaded_lod with
    | none => some []
    | some .Placeholder => some [Event.removePlaceholder]
    | some (.LodIndex k) =>
      match residentBlock blocks k with
      | none => none
      | some block => some (unloadEventsOf block k)
  match unloadEvents with
  | none => none
  | some unload =>
    match new_lod with
    | none => some (true, unload)
    | some .Placeholder => some (true, unload ++ [Event.insertPlaceholder])
    | some (.LodIndex k) =>
      if NUM_TEXTURE_GENERATORS ≤ k then none
      else
        let r := loadEventsOf (gen k) k pushOk
        some (r.1, unload ++ r.2)

/-- The state of `TerrainGameLoader` for one chunk: the chunk's entry in
`terrain.all_blocks`, and the LOD demand map. -/
structure TerrainGameLoader where
  blocks : Option (List (Option TerrainBlock))
  lod_map : LODMap

/-- `TerrainGameLoader::increase_lod`: drive the demand map, apply the
resulting `LodChange` through `re_lod_block`, and on failure revert the
demand-map entry with `decrease_lod` at the owner's previous demand.
A `none` result propagates a panic of `re_lod_block`. -/
def TerrainGameLoader.increase_lod (gen : Nat → TerrainBlock) (pushOk : Bool)
    (t : TerrainGameLoader) (target : LOD) (owner : Nat) :
    Option (Bool × TerrainGameLoader × List Event) :=
  let r := t.lod_map.increase_lod target owner
  match r.1.2 with
  | none => some (true, { t with lod_map := r.2 }, [])
  | some c =>
    match re_lod_block t.blocks gen pushOk c.loaded c.desired with
    | none => none
    | some (success, evs) =>
      if success then some (true, { t with lod_map := r.2 }, evs)
      else some (false, { t with lod_map := (r.2.decrease_lod r.1.1 owner).2 }, evs)

/-- `TerrainGameLoader::decrease_lod`: drive the demand map, apply the
resulting `LodChange` through `re_lod_block`, and on failure revert the
demand-map entry with `increase_lod` at the owner's previous demand when
that previous demand exists. -/
def TerrainGameLoader.decrease_lod (gen : Nat → TerrainBlock) (pushOk : Bool)
    (t : TerrainGameLoader) (target : Option LOD) (owner : Nat) :
    Option (Bool × TerrainGameLoader × List Event) :=
  let r := t.lod_map.decrease_lod target owner
  match r.1.2 with
  | none => some (true, { t with lod_map := r.2 }, [])
  | some c =>
    match re_lod_block t.blocks gen pushOk c.loaded c.desired with
    | none => none
    | some (success, evs) =>
      if success then some (true, { t with lod_map := r.2 }, evs)
      else
        some (false,
          { t with lod_map :=
              match r.1.1 with
              | none => r.2
              | some p => (r.2.increase_lod p owner).2 },
          evs)

/-!
## The client update thread (src/client/lib/src/update_thread.rs)

The chunk position is a signed integer 3-vector; a pending terrain request
is a (chunk position, lg_voxel_size) pair.  The wall clock is an oracle
`elapsed : Nat → Nat` giving the nanoseconds elapsed since the phase began
when sampled after the n-th processed item.  The result of
`terrain.try_load_chunk` and the distance-derived sample granularity are
oracle functions of the chunk position.
-/

/-- Chunk position: an integer 3-vector. -/
abbrev ChunkPos := Int × Int × Int

/-- A pending terrain request: (chunk position, lg_voxel_size). -/
abbrev ReqPair := ChunkPos × Nat

/-- Classification of a surroundings entry (common::surroundings_loader). -/
inductive LoadType where
  | Load
  | Downgrade
  | Unload
deriving DecidableEq, Repr

/-- Result of `terrain.try_load_chunk`. -/
inductive LoadResult where
  | Success
  | AlreadyLoaded
  | ChunkMissing
deriving DecidableEq, Repr

/-- The client state touched by the update thread that the claims are
about: the pending-request set and the outbound RequestChunk messages
issued so far. -/
structure SurState where
  pending : List ReqPair
  msgs : List ReqPair
deriving DecidableEq, Repr

/-- `MAX_OUTSTANDING_TERRAIN_REQUESTS` (update_thread.rs line 18). -/
def MAX_OUTSTANDING_TERRAIN_REQUESTS : Nat := 1

/-- Processing of one surroundings entry inside `update_surroundings`:
Load/Downgrade attempt the chunk load; on `ChunkMissing` the
(chunk, lg_voxel_size) pair is inserted into the pending set, and an
outbound RequestChunk message is emitted only when the pair was not
already pending.  Unload drops the chunk (no effect on the pending set or
outbound messages). -/
def processEntry (loadResult : ChunkPos → LoadResult) (lgSize : ChunkPos → Nat)
    (s : SurState) (e : ChunkPos × LoadType) : SurState :=
  match e.2 with
  | .Unload => s
  | _ =>
    match loadResult e.1 with
    | .Success => s
    | .AlreadyLoaded => s
    | .ChunkMissing =>
      let pair := (e.1, lgSize e.1)
      if pair ∈ s.pending then s
      else { pending := pair :: s.pending, msgs := s.msgs ++ [pair] }

/-- The loop of `update_surroundings`: before taking each entry the pending
set's size is compared against `MAX_OUTSTANDING_TERRAIN_REQUESTS` and the
phase stops entirely once the limit is reached; after processing an entry
the wall clock is sampled when the amortization counter `i` has reached 10
and the phase stops once a sample shows at least 1 ms (1_000_000 ns)
elapsed.  Returns the final state, the list of states after each processed
entry, and the list of (1-based) entry indices at which the clock was
sampled. -/
def surGo (loadResult : ChunkPos → LoadResult) (lgSize : ChunkPos → Nat)
    (elapsed : Nat → Nat) :
    List (ChunkPos × LoadType) → Nat → Nat → SurState →
    SurState × List SurState × List Nat
  | [], _, _, s => (s, [], [])
  | e :: rest, i, n, s =>
    if MAX_OUTSTANDING_TERRAIN_REQUESTS ≤ s.pending.length then (s, [], [])
    else
      let t := processEntry loadResult lgSize s e
      if 10 ≤ i then
        if 1000000 ≤ elapsed (n + 1) then (t, [t], [n + 1])
        else
          let r := surGo loadResult lgSize elapsed rest (i - 10 + 1) (n + 1) t
          (r.1, t :: r.2.1, (n + 1) :: r.2.2)
      else
        let r := surGo loadResult lgSize elapsed rest (i + 1) (n + 1) t
        (r.1, t :: r.2.1, r.2.2)

/-- `update_surroundings`: run the surroundings loop from counter 0. -/
def update_surroundings (loadResult : ChunkPos → LoadResult)
    (lgSize : ChunkPos → Nat) (elapsed : Nat → Nat)
    (entries : List (ChunkPos × LoadType)) (s : SurState) :
    SurState × List SurState × List Nat :=
  surGo loadResult lgSize elapsed entries 0 0 s

/-- An inbound server update, as far as the pending-request set is
concerned. -/
inductive ServerUpd where
  | chunkArrived (p : ReqPair)
  | other
deriving DecidableEq, Repr

/-- Modelled from the spec: `apply_server_update` (server_update.rs is not
part of this tree) removes a pending request upon arrival of its chunk
data and otherwise does not touch the pending-request set. -/
def apply_server_update (s : SurState) : ServerUpd → SurState
  | .chunkArrived p => { s with pending := s.pending.filter (fun q => q ≠ p) }
  | .other => s

/-- The loop of `process_server_updates`: pull queued inbound updates until
none remain; after applying an update the wall clock is sampled when the
amortization counter `i` has exceeded 10, and the phase stops once a
sample shows at least 1 ms elapsed.  Returns the final state, the list of
states after each processed update, and the (1-based) indices at which the
clock was sampled. -/
def drainGo (elapsed : Nat → Nat) :
    List ServerUpd → Nat → Nat → SurState →
    SurState × List SurState × List Nat
  | [], _, _, s => (s, [], [])
  | u :: rest, i, n, s =>
    let t := apply_server_update s u
    if 10 < i then
      if 1000000 ≤ elapsed (n + 1) then (t, [t], [n + 1])
      else
        let r := drainGo elapsed rest (i - 10 + 1) (n + 1) t
        (r.1, t :: r.2.1, (n + 1) :: r.2.2)
    else
      let r := drainGo elapsed rest (i + 1) (n + 1) t
      (r.1, t :: r.2.1, r.2.2)

/-- `process_server_updates`: run the drain loop from counter 0. -/
def process_server_updates (elapsed : Nat → Nat) (upds : List ServerUpd)
    (s : SurState) : SurState × List SurState × List Nat :=
  drainGo elapsed upds 0 0 s

/-- Modelled from the spec: `process_voxel_updates` ticks queued voxel
edits against loaded terrain (terrain.tick is not part of this tree); it
does not touch the pending-request set or the outbound message queue. -/
def process_voxel_updates (s : SurState) : SurState := s

/-- The inputs one iteration of the update loop consumes: the queued
server updates, the surroundings enumeration for the current observer
position, and the two phase clocks. -/
structure IterInput where
  upds : List ServerUpd
  drainElapsed : Nat → Nat
  entries : List (ChunkPos × LoadType)
  surElapsed : Nat → Nat

/-- A phase execution record: which phase ran, in which iteration. -/
inductive Phase where
  | drain (iter : Nat)
  | surroundings (iter : Nat)
  | voxel (iter : Nat)
deriving DecidableEq, Repr

/-- The three phases of one iteration of `update_thread`, in program
order: drain server updates, recompute surroundings, tick voxel updates.
Returns the state after each phase. -/
def iterOnce (loadResult : ChunkPos → LoadResult) (lgSize : ChunkPos → Nat)
    (inp : IterInput) (s : SurState) : SurState × SurState × SurState :=
  let d := (process_server_updates inp.drainElapsed inp.upds s).1
  let u := (update_surroundings loadResult lgSize inp.surElapsed inp.entries d).1
  (d, u, process_voxel_updates u)

/-- `update_thread`: check the quit flag at the top of each iteration and
otherwise run the three phases in order, threading the state; `fuel`
bounds the number of iterations considered.  Returns the phase trace, the
trace of after-phase states, and the final state. -/
def update_thread (loadResult : ChunkPos → LoadResult)
    (lgSize : ChunkPos → Nat) :
    Nat → (Nat → Bool) → (Nat → IterInput) → Nat → SurState →
    List Phase × List SurState × SurState
  | 0, _, _, _, s => ([], [], s)
  | fuel + 1, quit, inp, k, s =>
    if quit k then ([], [], s)
    else
      let p := iterOnce loadResult lgSize (inp k) s
      let r := update_thread loadResult lgSize fuel quit inp (k + 1) p.2.2
      (Phase.drain k :: Phase.surroundings k :: Phase.voxel k :: r.1,
       p.1 :: p.2.1 :: p.2.2 :: r.2.1,
       r.2.2)

/-- Number of iterations the update loop runs before observing the quit
flag (bounded by the fuel). -/
def numIters (quit : Nat → Bool) : Nat → Nat → Nat
  | 0, _ => 0
  | fuel + 1, k => if quit k then 0 else numIters quit fuel (k + 1) + 1

/-- The state at the start of iteration `k + j`, obtained by running `j`
full iterations from `s`. -/
def startState (loadResult : ChunkPos → LoadResult) (lgSize : ChunkPos → Nat)
    (inp : Nat → IterInput) (k : Nat) (s : SurState) : Nat → SurState
  | 0 => s
  | j + 1 =>
    (iterOnce loadResult lgSize (inp (k + j))
      (startState loadResult lgSize inp k s j)).2.2

/-- The strictly ordered phase trace of `m` full iterations starting at
iteration `k`: each iteration's drain, surroundings and voxel phases run
to completion, in that order, before the next iteration begins. -/
def phaseTrace (k m : Nat) : List Phase :=
  match m with
  | 0 => []
  | m' + 1 =>
    Phase.drain k :: Phase.surroundings k :: Phase.voxel k :: phaseTrace (k + 1) m'

/-- The after-phase state trace of `m` full iterations starting at
iteration `k` from state `s`. -/
def stateTrace (loadResult : ChunkPos → LoadResult) (lgSize : ChunkPos → Nat)
    (inp : Nat → IterInput) (k : Nat) (s : SurState) (m : Nat) :
    List SurState :=
  match m with
  | 0 => []
  | m' + 1 =>
    let p := iterOnce loadResult lgSize (inp k) s
    p.1 :: p.2.1 :: p.2.2 ::
      stateTrace loadResult lgSize inp (k + 1) p.2.2 m'

/-!
## Client-to-view updates (src/client/lib/src/view_update.rs)

Floating-point payloads (camera positions, vertex data, the sun) are
represented by opaque naturals; the claims at issue do not inspect them.
The GPU-side buffer collaborators are not part of this tree, so each
buffer records its insert/push/remove operations as a log (modelled from
the spec, which exposes the collaborators only as push/swap_remove
contracts).
-/

/-- The view's input mode (view.rs, used by the SetSun handler). -/
inductive InputMode where
  | Camera
  | Sun
deriving DecidableEq, Repr

/-- A terrain mesh handed to the view: the buffers pushed by AddBlock. -/
structure TerrainMesh where
  vertex_coordinates : List Nat
  normals : List Nat
  ids : List Nat
  materials : List Nat
  grass : List Nat
  grass_ids : List Nat
deriving DecidableEq, Repr

/-- The view state mutated by `apply_client_to_view`. -/
structure View where
  camera : Nat
  mob_buffers : List (Nat × Nat)
  player_buffers : List (Nat × Nat)
  input_mode : InputMode
  sun : Nat
  terrain_pushes : List (List Nat × List Nat × List Nat × List Nat)
  terrain_removals : List Nat
  grass_pushes : List (List Nat × List Nat)
  grass_removals : List Nat
deriving DecidableEq, Repr

/-- Messages from the client to the view (view_update.rs `enum T`). -/
inductive ViewUpdate where
  | MoveCamera (position : Nat)
  | UpdatePlayer (id : Nat) (triangles : Nat)
  | UpdateMob (id : Nat) (triangles : Nat)
  | SetSun (sun : Nat)
  | AddBlock (position : Nat) (mesh : TerrainMesh) (lod : Nat)
  | RemoveTerrain (id : Nat)
  | RemoveGrass (id : Nat)
  | Atomic (updates : List ViewUpdate)
deriving Repr

mutual

/-- `apply_client_to_view`: dispatch one view update against the view
state; an `Atomic` batch applies its sub-updates in sequence. -/
def apply_client_to_view (v : View) : ViewUpdate → View
  | .MoveCamera p => { v with camera := p }
  | .UpdateMob id tri => { v with mob_buffers := v.mob_buffers ++ [(id, tri)] }
  | .UpdatePlayer id tri =>
    { v with player_buffers := v.player_buffers ++ [(id, tri)] }
  | .SetSun s =>
    match v.input_mode with
    | .Sun => v
    | .Camera => { v with sun := s }
  | .AddBlock _ mesh _ =>
    { v with
      terrain_pushes := v.terrain_pushes ++
        [(mesh.vertex_coordinates, mesh.normals, mesh.ids, mesh.materials)],
      grass_pushes := v.grass_pushes ++ [(mesh.grass, mesh.grass_ids)] }
  | .RemoveTerrain id => { v with terrain_removals := v.terrain_removals ++ [id] }
  | .RemoveGrass id => { v with grass_removals := v.grass_removals ++ [id] }
  | .Atomic updates => applyUpdateList v updates
termination_by u => sizeOf u

/-- Apply a list of view updates one after another, in list order. -/
def applyUpdateList (v : View) : List ViewUpdate → View
  | [] => v
  | u :: us => applyUpdateList (apply_client_to_view v u) us
termination_by us => sizeOf us

end

/-!
## Lemmas about the demand map
-/

theorem LOD.finer_comm (a b : LOD) : a.finer b = b.finer a := by
  cases a <;> cases b <;> simp [LOD.finer, Nat.min_comm]

theorem LOD.finer_left_comm (a b c : LOD) :
    a.finer (b.finer c) = b.finer (a.finer c) := by
  cases a <;> cases b <;> cases c <;>
    simp [LOD.finer, Nat.min_comm, Nat.min_left_comm]

theorem aggregate_perm {l1 l2 : List (Nat × LOD)} (h : l1.Perm l2) :
    aggregate l1 = aggregate l2 := by
  induction h with
  | nil => rfl
  | cons x _ ih => simp [aggregate, ih]
  | swap x y l =>
    cases h : aggregate l <;>
      simp [aggregate, h, LOD.finer_comm, LOD.finer_left_comm]
  | trans _ _ ih1 ih2 => exact ih1.trans ih2

theorem lookupOwner_eq_none {o : Nat} :
    ∀ {l : List (Nat × LOD)}, o ∉ l.map Prod.fst → lookupOwner o l = none := by
  intro l
  induction l with
  | nil => intro _; rfl
  | cons x rest ih =>
    intro h
    simp only [List.map_cons, List.mem_cons, not_or] at h
    have hx : ¬x.1 = o := fun hh => h.1 hh.symm
    simp [lookupOwner, hx, ih h.2]

theorem setDemand_restore {o : Nat} {p : LOD} :
    ∀ {l : List (Nat × LOD)} (q : LOD), lookupOwner o l = some p →
      setDemand o p (setDemand o q l) = l := by
  intro l
  induction l with
  | nil => intro q h; simp [lookupOwner] at h
  | cons x rest ih =>
    obtain ⟨a, b⟩ := x
    intro q h
    by_cases ha : a = o
    · subst ha
      simp [lookupOwner] at h
      simp [setDemand, h]
    · simp [lookupOwner, ha] at h
      simp [setDemand, ha, ih q h]

theorem setDemand_append {o : Nat} (q : LOD) :
    ∀ {l : List (Nat × LOD)}, lookupOwner o l = none →
      setDemand o q l = l ++ [(o, q)] := by
  intro l
  induction l with
  | nil => intro _; simp [setDemand]
  | cons x rest ih =>
    obtain ⟨a, b⟩ := x
    intro h
    by_cases ha : a = o
    · subst ha; simp [lookupOwner] at h
    · simp [lookupOwner, ha] at h
      simp [setDemand, ha, ih h]

theorem removeDemand_setDemand {o : Nat} (q : LOD) :
    ∀ {l : List (Nat × LOD)}, lookupOwner o l = none →
      removeDemand o (setDemand o q l) = l := by
  intro l
  induction l with
  | nil => intro _; simp [setDemand, removeDemand]
  | cons x rest ih =>
    obtain ⟨a, b⟩ := x
    intro h
    by_cases ha : a = o
    · subst ha; simp [lookupOwner] at h
    · simp [lookupOwner, ha] at h
      simp [setDemand, removeDemand, ha, ih h]

theorem lookupOwner_removeDemand {o : Nat} :
    ∀ {l : List (Nat × LOD)}, (l.map Prod.fst).Nodup →
      lookupOwner o (removeDemand o l) = none := by
  intro l
  induction l with
  | nil => intro _; rfl
  | cons x rest ih =>
    intro h
    simp only [List.map_cons, List.nodup_cons] at h
    by_cases hx : x.1 = o
    · subst hx
      simp only [removeDemand, if_pos rfl]
      exact lookupOwner_eq_none h.1
    · have hx2 : ¬x.1 = o := hx
      simp only [removeDemand, if_neg hx2]
      simp [lookupOwner, hx2, ih h.2]

theorem perm_cons_removeDemand {o : Nat} {p : LOD} :
    ∀ {l : List (Nat × LOD)}, lookupOwner o l = some p →
      l.Perm ((o, p) :: removeDemand o l) := by
  intro l
  induction l with
  | nil => intro h; simp [lookupOwner] at h
  | cons x rest ih =>
    obtain ⟨a, b⟩ := x
    intro h
    by_cases ha : a = o
    · subst ha
      simp [lookupOwner] at h
      subst h
      simp only [removeDemand, if_pos rfl]
      exact List.Perm.refl _
    · simp [lookupOwner, ha] at h
      simp only [removeDemand, if_neg ha]
      exact ((ih h).cons _).trans (List.Perm.swap _ _ _)

theorem increase_lod_prev (m : LODMap) (t : LOD) (o : Nat) :
    (m.increase_lod t o).1.1 = lookupOwner o m.owner_lods := rfl

theorem increase_lod_state (m : LODMap) (t : LOD) (o : Nat) :
    (m.increase_lod t o).2 =
      { owner_lods := setDemand o t m.owner_lods,
        loaded := aggregate (setDemand o t m.owner_lods) } := rfl

theorem decrease_lod_prev (m : LODMap) (t : Option LOD) (o : Nat) :
    (m.decrease_lod t o).1.1 = lookupOwner o m.owner_lods := rfl

theorem decrease_lod_state_some (m : LODMap) (t' : LOD) (o : Nat) :
    (m.decrease_lod (some t') o).2 =
      { owner_lods := setDemand o t' m.owner_lods,
        loaded := aggregate (setDemand o t' m.owner_lods) } := rfl

theorem decrease_lod_state_none (m : LODMap) (o : Nat) :
    (m.decrease_lod none o).2 =
      { owner_lods := removeDemand o m.owner_lods,
        loaded := aggregate (removeDemand o m.owner_lods) } := rfl

theorem applyCall_loaded_eq_aggregate (m : LODMap) (c : LodCall) :
    (applyCall m c).loaded = aggregate (applyCall m c).owner_lods := by
  cases c <;> rfl

/-- C3: for every sequence of increase_lod/decrease_lod calls by any set of
owners on one chunk, after each call the map's recorded loaded LOD equals
the finest LOD among all owners' current demands (lower LodIndex finer
than higher, any concrete LodIndex finer than Placeholder, Placeholder
finer than no demand). -/
theorem lod_map_loaded_eq_finest_demand (calls : List LodCall) (i : Nat)
    (h : i < calls.length) :
    (runCalls LODMap.new (calls.take (i + 1))).loaded =
      aggregate (runCalls LODMap.new (calls.take (i + 1))).owner_lods := by
  cases hq : calls[i]? with
  | none => rw [List.getElem?_eq_getElem h] at hq; simp at hq
  | some c =>
    rw [List.take_succ, hq]
    simp only [Option.toList_some, runCalls, List.foldl_append, List.foldl_cons,
      List.foldl_nil]
    exact applyCall_loaded_eq_aggregate _ _

theorem lod_map_loaded_eq_finest_demand_witness :
    0 < [LodCall.inc (LOD.LodIndex 2) 1].length ∧
      (runCalls LODMap.new ([LodCall.inc (LOD.LodIndex 2) 1].take (0 + 1))).loaded =
        aggregate
          (runCalls LODMap.new
            ([LodCall.inc (LOD.LodIndex 2) 1].take (0 + 1))).owner_lods :=
  ⟨by decide, lod_map_loaded_eq_finest_demand [LodCall.inc (LOD.LodIndex 2) 1] 0 (by decide)⟩

/-- C2: for every call whose apply step fails — with no coupling between
the two scenarios — when the apply step after `increase_lod` fails the
loader calls `lod_map.decrease_lod` with the owner's previous demand
(possibly `none`, for an owner with no prior demand); when the apply step
after `decrease_lod` fails and the previous demand exists, it calls
`lod_map.increase_lod` with it; in both cases the public call returns
false and the chunk stays recorded at its previous loaded LOD. -/
theorem lod_rollback_on_failed_apply
    (genI genD : Nat → TerrainBlock) (pushOkI pushOkD : Bool)
    (tI tD : TerrainGameLoader) (ownerI ownerD : Nat)
    (targetI : LOD) (targetD : Option LOD)
    (prevI : Option LOD) (pD : LOD) (cI cD : LodChange) (mI mD : LODMap)
    (evsI evsD : List Event)
    (hinvI : tI.lod_map.loaded = aggregate tI.lod_map.owner_lods)
    (hinvD : tD.lod_map.loaded = aggregate tD.lod_map.owner_lods)
    (hnodupD : (tD.lod_map.owner_lods.map Prod.fst).Nodup)
    (hmI : tI.lod_map.increase_lod targetI ownerI = ((prevI, some cI), mI))
    (haI : re_lod_block tI.blocks genI pushOkI cI.loaded cI.desired =
      some (false, evsI))
    (hmD : tD.lod_map.decrease_lod targetD ownerD = ((some pD, some cD), mD))
    (haD : re_lod_block tD.blocks genD pushOkD cD.loaded cD.desired =
      some (false, evsD)) :
    TerrainGameLoader.increase_lod genI pushOkI tI targetI ownerI =
        some (false, { tI with lod_map := (mI.decrease_lod prevI ownerI).2 }, evsI) ∧
      ((mI.decrease_lod prevI ownerI).2).loaded = tI.lod_map.loaded ∧
      TerrainGameLoader.decrease_lod genD pushOkD tD targetD ownerD =
        some (false, { tD with lod_map := (mD.increase_lod pD ownerD).2 }, evsD) ∧
      ((mD.increase_lod pD ownerD).2).loaded = tD.lod_map.loaded := by
  have hprevI : prevI = lookupOwner ownerI tI.lod_map.owner_lods := by
    have := congrArg (fun x => x.1.1) hmI
    simpa [increase_lod_prev] using this.symm
  have hmI2 : mI = (tI.lod_map.increase_lod targetI ownerI).2 := by
    rw [hmI]
  have hmIlods : mI.owner_lods = setDemand ownerI targetI tI.lod_map.owner_lods := by
    rw [hmI2, increase_lod_state]
  have hprevD : lookupOwner ownerD tD.lod_map.owner_lods = some pD := by
    have := congrArg (fun x => x.1.1) hmD
    simpa [decrease_lod_prev] using this
  have hmD2 : mD = (tD.lod_map.decrease_lod targetD ownerD).2 := by
    rw [hmD]
  refine ⟨?_, ?_, ?_, ?_⟩
  · simp [TerrainGameLoader.increase_lod, hmI, haI]
  · cases hp : prevI with
    | none =>
      have hl : lookupOwner ownerI tI.lod_map.owner_lods = none := by
        rw [← hprevI, hp]
      simp only [decrease_lod_state_none]
      rw [hmIlods, removeDemand_setDemand _ hl, hinvI]
    | some p =>
      have hl : lookupOwner ownerI tI.lod_map.owner_lods = some p := by
        rw [← hprevI, hp]
      simp only [decrease_lod_state_some]
      rw [hmIlods, setDemand_restore _ hl, hinvI]
  · simp [TerrainGameLoader.decrease_lod, hmD, haD]
  · rw [increase_lod_state]
    cases ht : targetD with
    | some t' =>
      have hmDlods : mD.owner_lods = setDemand ownerD t' tD.lod_map.owner_lods := by
        rw [hmD2, ht, decrease_lod_state_some]
      rw [hmDlods, setDemand_restore _ hprevD, hinvD]
    | none =>
      have hmDlods : mD.owner_lods = removeDemand ownerD tD.lod_map.owner_lods := by
        rw [hmD2, ht, decrease_lod_state_none]
      have hnone : lookupOwner ownerD mD.owner_lods = none := by
        rw [hmDlods]
        exact lookupOwner_removeDemand hnodupD
      rw [setDemand_append _ hnone, hmDlods]
      have hperm :
          (removeDemand ownerD tD.lod_map.owner_lods ++ [(ownerD, pD)]).Perm
            tD.lod_map.owner_lods :=
        (List.perm_append_singleton _ _).trans (perm_cons_removeDemand hprevD).symm
      rw [aggregate_perm hperm, hinvD]

/-- Concrete generation oracle used by witnesses: one entity id and one
physics bound. -/
def wGen : Nat → TerrainBlock := fun _ => { ids := [7], bounds := [(5, 0)] }

/-- Concrete loader state used by witnesses: a block resident at LOD slot 1
and two owners demanding LODs 2 and 1. -/
def wLoader : TerrainGameLoader :=
  { blocks := some [none, some { ids := [], bounds := [] }],
    lod_map :=
      { owner_lods := [(1, LOD.LodIndex 2), (2, LOD.LodIndex 1)],
        loaded := some (LOD.LodIndex 1) } }

theorem lod_rollback_on_failed_apply_witness :
    (wLoader.lod_map.loaded = aggregate wLoader.lod_map.owner_lods) ∧
      ((wLoader.lod_map.owner_lods.map Prod.fst).Nodup) ∧
      (wLoader.lod_map.increase_lod (LOD.LodIndex 0) 3 =
        ((none,
          some (LodChange.mk (some (LOD.LodIndex 1)) (some (LOD.LodIndex 0)))),
         LODMap.mk [(1, LOD.LodIndex 2), (2, LOD.LodIndex 1), (3, LOD.LodIndex 0)]
           (some (LOD.LodIndex 0)))) ∧
      (re_lod_block wLoader.blocks wGen false (some (LOD.LodIndex 1))
          (some (LOD.LodIndex 0)) =
        some (false, [Event.vramFree 1, Event.physicsInsert 5,
          Event.vramPushBlockData 0, Event.vramPush [7]])) ∧
      (wLoader.lod_map.decrease_lod (some (LOD.LodIndex 3)) 2 =
        ((some (LOD.LodIndex 1),
          some (LodChange.mk (some (LOD.LodIndex 1)) (some (LOD.LodIndex 2)))),
         LODMap.mk [(1, LOD.LodIndex 2), (2, LOD.LodIndex 3)]
           (some (LOD.LodIndex 2)))) ∧
      (re_lod_block wLoader.blocks wGen false (some (LOD.LodIndex 1))
          (some (LOD.LodIndex 2)) =
        some (false, [Event.vramFree 1, Event.physicsInsert 5,
          Event.vramPushBlockData 2, Event.vramPush [7]])) ∧
      (TerrainGameLoader.increase_lod wGen false wLoader (LOD.LodIndex 0) 3 =
          some (false,
            { wLoader with lod_map :=
                ((LODMap.mk
                  [(1, LOD.LodIndex 2), (2, LOD.LodIndex 1), (3, LOD.LodIndex 0)]
                  (some (LOD.LodIndex 0))).decrease_lod none 3).2 },
            [Event.vramFree 1, Event.physicsInsert 5,
              Event.vramPushBlockData 0, Event.vramPush [7]]) ∧
        (((LODMap.mk
            [(1, LOD.LodIndex 2), (2, LOD.LodIndex 1), (3, LOD.LodIndex 0)]
            (some (LOD.LodIndex 0))).decrease_lod none 3).2).loaded =
          wLoader.lod_map.loaded ∧
        TerrainGameLoader.decrease_lod wGen false wLoader (some (LOD.LodIndex 3)) 2 =
          some (false,
            { wLoader with lod_map :=
                ((LODMap.mk [(1, LOD.LodIndex 2), (2, LOD.LodIndex 3)]
                  (some (LOD.LodIndex 2))).increase_lod (LOD.LodIndex 1) 2).2 },
            [Event.vramFree 1, Event.physicsInsert 5,
              Event.vramPushBlockData 2, Event.vramPush [7]]) ∧
        (((LODMap.mk [(1, LOD.LodIndex 2), (2, LOD.LodIndex 3)]
            (some (LOD.LodIndex 2))).increase_lod (LOD.LodIndex 1) 2).2).loaded =
          wLoader.lod_map.loaded) :=
  ⟨by decide, by decide, by decide, by decide, by decide, by decide,
    lod_rollback_on_failed_apply wGen wGen false false wLoader wLoader 3 2
      (LOD.LodIndex 0) (some (LOD.LodIndex 3)) none (LOD.LodIndex 1)
      (LodChange.mk (some (LOD.LodIndex 1)) (some (LOD.LodIndex 0)))
      (LodChange.mk (some (LOD.LodIndex 1)) (some (LOD.LodIndex 2)))
      (LODMap.mk [(1, LOD.LodIndex 2), (2, LOD.LodIndex 1), (3, LOD.LodIndex 0)]
        (some (LOD.LodIndex 0)))
      (LODMap.mk [(1, LOD.LodIndex 2), (2, LOD.LodIndex 3)]
        (some (LOD.LodIndex 2)))
      [Event.vramFree 1, Event.physicsInsert 5, Event.vramPushBlockData 0,
        Event.vramPush [7]]
      [Event.vramFree 1, Event.physicsInsert 5, Event.vramPushBlockData 2,
        Event.vramPush [7]]
      (by decide) (by decide) (by decide) (by decide) (by decide) (by decide)
      (by decide)⟩

/-!
## Claims about re_lod_block
-/

/-- C1 (divergence from the spec): with `new_lod = Some(LodIndex 0)` and the
GPU push rejected, `re_lod_block` returns false but the physics shape
inserted for the new block (id 5) is never removed — the trace holds the
insert and no matching removal, so the failed load attempt leaves the new
physics shape behind. -/
theorem physics_leak_on_gpu_push_failure :
    re_lod_block none (fun _ => { ids := [7], bounds := [(5, 0)] }) false
        none (some (LOD.LodIndex 0)) =
      some (false,
        [Event.physicsInsert 5, Event.vramPushBlockData 0, Event.vramPush [7]]) ∧
      Event.physicsRemove 5 ∉
        [Event.physicsInsert 5, Event.vramPushBlockData 0, Event.vramPush [7]] := by
  decide

theorem re_lod_block_lod_to_lod (blocks : Option (List (Option TerrainBlock)))
    (gen : Nat → TerrainBlock) (pushOk : Bool) (j k : Nat)
    (block : TerrainBlock) (hr : residentBlock blocks j = some block)
    (hk : ¬NUM_TEXTURE_GENERATORS ≤ k) :
    re_lod_block blocks gen pushOk (some (LOD.LodIndex j)) (some (LOD.LodIndex k)) =
      some ((loadEventsOf (gen k) k pushOk).1,
        unloadEventsOf block j ++ (loadEventsOf (gen k) k pushOk).2) := by
  simp only [re_lod_block, hr, if_neg hk]

theorem unloadEventsOf_mem {e : Event} {block : TerrainBlock} {j : Nat}
    (h : e ∈ unloadEventsOf block j) : isUnloadEvent e = true := by
  simp only [unloadEventsOf, List.mem_append, List.mem_flatMap,
    List.mem_cons, List.mem_singleton, List.not_mem_nil] at h
  rcases h with ⟨id, _, h | h | h⟩ | h | h
  · subst h; rfl
  · subst h; rfl
  · exact absurd h (by simp)
  · subst h; rfl
  · exact h.elim

theorem loadEventsOf_mem {e : Event} {block : TerrainBlock} {k : Nat}
    {pushOk : Bool} (h : e ∈ (loadEventsOf block k pushOk).2) :
    isLoadEvent e = true := by
  by_cases he : block.ids.isEmpty
  · simp only [loadEventsOf, if_pos he, List.mem_map] at h
    obtain ⟨p, _, h⟩ := h
    subst h; rfl
  · simp only [loadEventsOf, if_neg he, List.mem_append, List.mem_map,
      List.mem_cons, List.mem_singleton, List.not_mem_nil] at h
    rcases h with ⟨p, _, h⟩ | h | h | h
    · subst h; rfl
    · subst h; rfl
    · subst h; rfl
    · exact absurd h (by simp)

/-- C6: when `re_lod_block` transitions a chunk between two concrete LODs,
its effect trace splits into a first part of removal effects only followed
by a second part of load effects only — every removal of the old
representation is issued before any insert or push for the new one. -/
theorem unload_precedes_load (blocks : Option (List (Option TerrainBlock)))
    (gen : Nat → TerrainBlock) (pushOk : Bool) (j k : Nat) (b : Bool)
    (tr : List Event)
    (h : re_lod_block blocks gen pushOk (some (LOD.LodIndex j))
      (some (LOD.LodIndex k)) = some (b, tr)) :
    ∃ t1 t2, tr = t1 ++ t2 ∧ (∀ e ∈ t1, isUnloadEvent e = true) ∧
      ∀ e ∈ t2, isLoadEvent e = true := by
  cases hr : residentBlock blocks j with
  | none =>
    have hn : re_lod_block blocks gen pushOk (some (LOD.LodIndex j))
        (some (LOD.LodIndex k)) = none := by
      simp only [re_lod_block, hr]
    rw [hn] at h
    exact absurd h (by simp)
  | some block =>
    by_cases hk : NUM_TEXTURE_GENERATORS ≤ k
    · have hn : re_lod_block blocks gen pushOk (some (LOD.LodIndex j))
          (some (LOD.LodIndex k)) = none := by
        simp only [re_lod_block, hr, if_pos hk]
      rw [hn] at h
      exact absurd h (by simp)
    · rw [re_lod_block_lod_to_lod blocks gen pushOk j k block hr hk] at h
      simp only [Option.some.injEq, Prod.mk.injEq] at h
      obtain ⟨_, htr⟩ := h
      refine ⟨unloadEventsOf block j, (loadEventsOf (gen k) k pushOk).2, htr.symm,
        ?_, ?_⟩
      · intro e he; exact unloadEventsOf_mem he
      · intro e he; exact loadEventsOf_mem he

theorem unload_precedes_load_witness :
    re_lod_block (some [some (TerrainBlock.mk [] [])])
        (fun _ => TerrainBlock.mk [] []) true (some (LOD.LodIndex 0))
        (some (LOD.LodIndex 0)) = some (true, [Event.vramFree 0]) ∧
      ∃ t1 t2, [Event.vramFree 0] = t1 ++ t2 ∧
        (∀ e ∈ t1, isUnloadEvent e = true) ∧ ∀ e ∈ t2, isLoadEvent e = true :=
  ⟨by decide,
    unload_precedes_load (some [some (TerrainBlock.mk [] [])])
      (fun _ => TerrainBlock.mk [] []) true 0 0 true [Event.vramFree 0]
      (by decide)⟩

/-- C10: `re_lod_block` panics (modelled as `none`) exactly when either the
recorded loaded LOD is a concrete `LodIndex k` with no resident generated
block populated at slot `k` (the unload branch unconditionally unwraps the
map lookup and the per-LOD slot) or the desired LOD's index falls outside
the 4-element `texture_generators` array.  In particular, whenever the
recorded loaded LOD has no corresponding resident block the call panics
rather than returning false, so block residency for the recorded loaded
LOD is an unstated precondition. -/
theorem re_lod_block_panics_without_resident_block
    (blocks : Option (List (Option TerrainBlock))) (gen : Nat → TerrainBlock)
    (pushOk : Bool) (loaded_lod new_lod : Option LOD) :
    re_lod_block blocks gen pushOk loaded_lod new_lod = none ↔
      (∃ k, loaded_lod = some (LOD.LodIndex k) ∧ residentBlock blocks k = none) ∨
        ∃ k, new_lod = some (LOD.LodIndex k) ∧ NUM_TEXTURE_GENERATORS ≤ k := by
  cases loaded_lod with
  | none =>
    cases new_lod with
    | none => simp [re_lod_block]
    | some nl =>
      cases nl with
      | Placeholder => simp [re_lod_block]
      | LodIndex k =>
        by_cases hk : NUM_TEXTURE_GENERATORS ≤ k <;> simp [re_lod_block, hk]
  | some l =>
    cases l with
    | Placeholder =>
      cases new_lod with
      | none => simp [re_lod_block]
      | some nl =>
        cases nl with
        | Placeholder => simp [re_lod_block]
        | LodIndex k =>
          by_cases hk : NUM_TEXTURE_GENERATORS ≤ k <;> simp [re_lod_block, hk]
    | LodIndex j =>
      cases hr : residentBlock blocks j with
      | none =>
        constructor
        · intro _; exact Or.inl ⟨j, rfl, hr⟩
        · intro _; simp [re_lod_block, hr]
      | some block =>
        constructor
        · intro h
          cases new_lod with
          | none => simp [re_lod_block, hr] at h
          | some nl =>
            cases nl with
            | Placeholder => simp [re_lod_block, hr] at h
            | LodIndex k =>
              by_cases hk : NUM_TEXTURE_GENERATORS ≤ k
              · exact Or.inr ⟨k, rfl, hk⟩
              · simp [re_lod_block, hr, hk] at h
        · rintro (⟨k, hk, hrk⟩ | ⟨k, hk, hrk⟩)
          · obtain rfl : j = k := by simpa using hk
            rw [hr] at hrk
            exact absurd hrk (by simp)
          · subst hk
            simp [re_lod_block, hr, if_pos hrk]

theorem re_lod_block_panics_without_resident_block_witness :
    re_lod_block none (fun _ => TerrainBlock.mk [] []) true
        (some (LOD.LodIndex 2)) none = none :=
  (re_lod_block_panics_without_resident_block none
    (fun _ => TerrainBlock.mk [] []) true (some (LOD.LodIndex 2)) none).mpr
    (Or.inl ⟨2, rfl, rfl⟩)

/-!
## Lemmas about the update-thread loops
-/

theorem surGo_cons_guard (lr : ChunkPos → LoadResult) (lg : ChunkPos → Nat)
    (elapsed : Nat → Nat) (e : ChunkPos × LoadType)
    (rest : List (ChunkPos × LoadType)) (i n : Nat) (s : SurState)
    (hg : MAX_OUTSTANDING_TERRAIN_REQUESTS ≤ s.pending.length) :
    surGo lr lg elapsed (e :: rest) i n s = (s, [], []) := by
  simp [surGo, hg]

theorem surGo_cons_break (lr : ChunkPos → LoadResult) (lg : ChunkPos → Nat)
    (elapsed : Nat → Nat) (e : ChunkPos × LoadType)
    (rest : List (ChunkPos × LoadType)) (i n : Nat) (s : SurState)
    (hg : ¬MAX_OUTSTANDING_TERRAIN_REQUESTS ≤ s.pending.length) (hi : 10 ≤ i)
    (he : 1000000 ≤ elapsed (n + 1)) :
    surGo lr lg elapsed (e :: rest) i n s =
      (processEntry lr lg s e, [processEntry lr lg s e], [n + 1]) := by
  simp [surGo, hg, hi, he]

theorem surGo_cons_sample (lr : ChunkPos → LoadResult) (lg : ChunkPos → Nat)
    (elapsed : Nat → Nat) (e : ChunkPos × LoadType)
    (rest : List (ChunkPos × LoadType)) (i n : Nat) (s : SurState)
    (hg : ¬MAX_OUTSTANDING_TERRAIN_REQUESTS ≤ s.pending.length) (hi : 10 ≤ i)
    (he : ¬1000000 ≤ elapsed (n + 1)) :
    surGo lr lg elapsed (e :: rest) i n s =
      ((surGo lr lg elapsed rest (i - 10 + 1) (n + 1) (processEntry lr lg s e)).1,
       processEntry lr lg s e ::
         (surGo lr lg elapsed rest (i - 10 + 1) (n + 1) (processEntry lr lg s e)).2.1,
       (n + 1) ::
         (surGo lr lg elapsed rest (i - 10 + 1) (n + 1) (processEntry lr lg s e)).2.2) := by
  simp [surGo, hg, hi, he]

theorem surGo_cons_nosample (lr : ChunkPos → LoadResult) (lg : ChunkPos → Nat)
    (elapsed : Nat → Nat) (e : ChunkPos × LoadType)
    (rest : List (ChunkPos × LoadType)) (i n : Nat) (s : SurState)
    (hg : ¬MAX_OUTSTANDING_TERRAIN_REQUESTS ≤ s.pending.length) (hi : ¬10 ≤ i) :
    surGo lr lg elapsed (e :: rest) i n s =
      ((surGo lr lg elapsed rest (i + 1) (n + 1) (processEntry lr lg s e)).1,
       processEntry lr lg s e ::
         (surGo lr lg elapsed rest (i + 1) (n + 1) (processEntry lr lg s e)).2.1,
       (surGo lr lg elapsed rest (i + 1) (n + 1) (processEntry lr lg s e)).2.2) := by
  simp [surGo, hg, hi]

theorem drainGo_cons_break (elapsed : Nat → Nat) (u : ServerUpd)
    (rest : List ServerUpd) (i n : Nat) (s : SurState) (hi : 10 < i)
    (he : 1000000 ≤ elapsed (n + 1)) :
    drainGo elapsed (u :: rest) i n s =
      (apply_server_update s u, [apply_server_update s u], [n + 1]) := by
  simp [drainGo, hi, he]

theorem drainGo_cons_sample (elapsed : Nat → Nat) (u : ServerUpd)
    (rest : List ServerUpd) (i n : Nat) (s : SurState) (hi : 10 < i)
    (he : ¬1000000 ≤ elapsed (n + 1)) :
    drainGo elapsed (u :: rest) i n s =
      ((drainGo elapsed rest (i - 10 + 1) (n + 1) (apply_server_update s u)).1,
       apply_server_update s u ::
         (drainGo elapsed rest (i - 10 + 1) (n + 1) (apply_server_update s u)).2.1,
       (n + 1) ::
         (drainGo elapsed rest (i - 10 + 1) (n + 1) (apply_server_update s u)).2.2) := by
  simp [drainGo, hi, he]

theorem drainGo_cons_nosample (elapsed : Nat → Nat) (u : ServerUpd)
    (rest : List ServerUpd) (i n : Nat) (s : SurState) (hi : ¬10 < i) :
    drainGo elapsed (u :: rest) i n s =
      ((drainGo elapsed rest (i + 1) (n + 1) (apply_server_update s u)).1,
       apply_server_update s u ::
         (drainGo elapsed rest (i + 1) (n + 1) (apply_server_update s u)).2.1,
       (drainGo elapsed rest (i + 1) (n + 1) (apply_server_update s u)).2.2) := by
  simp [drainGo, hi]

theorem processEntry_pending_length (lr : ChunkPos → LoadResult)
    (lg : ChunkPos → Nat) (s : SurState) (e : ChunkPos × LoadType) :
    (processEntry lr lg s e).pending.length ≤ s.pending.length + 1 := by
  rcases e with ⟨pos, lt⟩
  cases lt with
  | Unload => simp [processEntry]
  | Load =>
    cases h : lr pos with
    | Success => simp [processEntry, h]
    | AlreadyLoaded => simp [processEntry, h]
    | ChunkMissing =>
      by_cases hm : (pos, lg pos) ∈ s.pending
      · simp [processEntry, h, hm]
      · simp [processEntry, h, hm]
  | Downgrade =>
    cases h : lr pos with
    | Success => simp [processEntry, h]
    | AlreadyLoaded => simp [processEntry, h]
    | ChunkMissing =>
      by_cases hm : (pos, lg pos) ∈ s.pending
      · simp [processEntry, h, hm]
      · simp [processEntry, h, hm]

theorem processEntry_count (lr : ChunkPos → LoadResult) (lg : ChunkPos → Nat)
    (s : SurState) (e : ChunkPos × LoadType) (pair : ReqPair)
    (h : pair ∈ s.pending) :
    (processEntry lr lg s e).msgs.count pair = s.msgs.count pair ∧
      pair ∈ (processEntry lr lg s e).pending := by
  rcases e with ⟨pos, lt⟩
  cases lt with
  | Unload => exact ⟨rfl, h⟩
  | Load =>
    cases hres : lr pos with
    | Success => exact ⟨by simp [processEntry, hres], by simpa [processEntry, hres] using h⟩
    | AlreadyLoaded => exact ⟨by simp [processEntry, hres], by simpa [processEntry, hres] using h⟩
    | ChunkMissing =>
      by_cases hm : (pos, lg pos) ∈ s.pending
      · exact ⟨by simp [processEntry, hres, hm], by simpa [processEntry, hres, hm] using h⟩
      · have hne : (pos, lg pos) ≠ pair := fun hh => hm (hh ▸ h)
        constructor
        · simp only [processEntry, hres, if_neg hm]
          rw [List.count_append]
          have : List.count pair [(pos, lg pos)] = 0 :=
            List.count_eq_zero.mpr (by simp [hne.symm])
          simp [this]
        · simp only [processEntry, hres, if_neg hm]
          exact List.mem_cons_of_mem _ h
  | Downgrade =>
    cases hres : lr pos with
    | Success => exact ⟨by simp [processEntry, hres], by simpa [processEntry, hres] using h⟩
    | AlreadyLoaded => exact ⟨by simp [processEntry, hres], by simpa [processEntry, hres] using h⟩
    | ChunkMissing =>
      by_cases hm : (pos, lg pos) ∈ s.pending
      · exact ⟨by simp [processEntry, hres, hm], by simpa [processEntry, hres, hm] using h⟩
      · have hne : (pos, lg pos) ≠ pair := fun hh => hm (hh ▸ h)
        constructor
        · simp only [processEntry, hres, if_neg hm]
          rw [List.count_append]
          have : List.count pair [(pos, lg pos)] = 0 :=
            List.count_eq_zero.mpr (by simp [hne.symm])
          simp [this]
        · simp only [processEntry, hres, if_neg hm]
          exact List.mem_cons_of_mem _ h

theorem surGo_pending_bounded (lr : ChunkPos → LoadResult)
    (lg : ChunkPos → Nat) (elapsed : Nat → Nat) :
    ∀ (entries : List (ChunkPos × LoadType)) (i n : Nat) (s : SurState),
      s.pending.length ≤ MAX_OUTSTANDING_TERRAIN_REQUESTS →
      ∀ t ∈ s :: (surGo lr lg elapsed entries i n s).2.1,
        t.pending.length ≤ MAX_OUTSTANDING_TERRAIN_REQUESTS := by
  intro entries
  induction entries with
  | nil =>
    intro i n s h t ht
    simp only [surGo, List.mem_cons, List.not_mem_nil, or_false] at ht
    exact ht ▸ h
  | cons e rest ih =>
    intro i n s h t ht
    by_cases hg : MAX_OUTSTANDING_TERRAIN_REQUESTS ≤ s.pending.length
    · rw [surGo_cons_guard lr lg elapsed e rest i n s hg] at ht
      simp only [List.mem_cons, List.not_mem_nil, or_false] at ht
      exact ht ▸ h
    · have h1 : (processEntry lr lg s e).pending.length ≤
          MAX_OUTSTANDING_TERRAIN_REQUESTS := by
        have := processEntry_pending_length lr lg s e
        omega
      by_cases hi : 10 ≤ i
      · by_cases he : 1000000 ≤ elapsed (n + 1)
        · rw [surGo_cons_break lr lg elapsed e rest i n s hg hi he] at ht
          simp only [List.mem_cons, List.not_mem_nil, or_false] at ht
          rcases ht with ht | ht
          · exact ht ▸ h
          · exact ht ▸ h1
        · rw [surGo_cons_sample lr lg elapsed e rest i n s hg hi he] at ht
          rcases List.mem_cons.mp ht with ht | ht
          · exact ht ▸ h
          · exact ih (i - 10 + 1) (n + 1) (processEntry lr lg s e) h1 t ht
      · rw [surGo_cons_nosample lr lg elapsed e rest i n s hg hi] at ht
        rcases List.mem_cons.mp ht with ht | ht
        · exact ht ▸ h
        · exact ih (i + 1) (n + 1) (processEntry lr lg s e) h1 t ht

theorem apply_server_update_pending_length (s : SurState) (u : ServerUpd) :
    (apply_server_update s u).pending.length ≤ s.pending.length := by
  cases u with
  | chunkArrived p => simpa [apply_server_update] using List.length_filter_le _ _
  | other => simp [apply_server_update]

theorem drainGo_pending_mono (elapsed : Nat → Nat) :
    ∀ (upds : List ServerUpd) (i n : Nat) (s : SurState),
      ∀ t ∈ s :: (drainGo elapsed upds i n s).2.1,
        t.pending.length ≤ s.pending.length := by
  intro upds
  induction upds with
  | nil =>
    intro i n s t ht
    simp only [drainGo, List.mem_cons, List.not_mem_nil, or_false] at ht
    exact ht ▸ le_refl _
  | cons u rest ih =>
    intro i n s t ht
    have h1 := apply_server_update_pending_length s u
    by_cases hi : 10 < i
    · by_cases he : 1000000 ≤ elapsed (n + 1)
      · rw [drainGo_cons_break elapsed u rest i n s hi he] at ht
        simp only [List.mem_cons, List.not_mem_nil, or_false] at ht
        rcases ht with ht | ht
        · exact ht ▸ le_refl _
        · exact ht ▸ h1
      · rw [drainGo_cons_sample elapsed u rest i n s hi he] at ht
        rcases List.mem_cons.mp ht with ht | ht
        · exact ht ▸ le_refl _
        · exact le_trans
            (ih (i - 10 + 1) (n + 1) (apply_server_update s u) t ht) h1
    · rw [drainGo_cons_nosample elapsed u rest i n s hi] at ht
      rcases List.mem_cons.mp ht with ht | ht
      · exact ht ▸ le_refl _
      · exact le_trans (ih (i + 1) (n + 1) (apply_server_update s u) t ht) h1

theorem surGo_final_mem (lr : ChunkPos → LoadResult) (lg : ChunkPos → Nat)
    (elapsed : Nat → Nat) :
    ∀ (entries : List (ChunkPos × LoadType)) (i n : Nat) (s : SurState),
      (surGo lr lg elapsed entries i n s).1 ∈
        s :: (surGo lr lg elapsed entries i n s).2.1 := by
  intro entries
  induction entries with
  | nil => intro i n s; simp [surGo]
  | cons e rest ih =>
    intro i n s
    by_cases hg : MAX_OUTSTANDING_TERRAIN_REQUESTS ≤ s.pending.length
    · rw [surGo_cons_guard lr lg elapsed e rest i n s hg]; simp
    · by_cases hi : 10 ≤ i
      · by_cases he : 1000000 ≤ elapsed (n + 1)
        · rw [surGo_cons_break lr lg elapsed e rest i n s hg hi he]; simp
        · rw [surGo_cons_sample lr lg elapsed e rest i n s hg hi he]
          have := ih (i - 10 + 1) (n + 1) (processEntry lr lg s e)
          simp only [List.mem_cons] at this ⊢
          tauto
      · rw [surGo_cons_nosample lr lg elapsed e rest i n s hg hi]
        have := ih (i + 1) (n + 1) (processEntry lr lg s e)
        simp only [List.mem_cons] at this ⊢
        tauto

theorem drainGo_final_mem (elapsed : Nat → Nat) :
    ∀ (upds : List ServerUpd) (i n : Nat) (s : SurState),
      (drainGo elapsed upds i n s).1 ∈ s :: (drainGo elapsed upds i n s).2.1 := by
  intro upds
  induction upds with
  | nil => intro i n s; simp [drainGo]
  | cons u rest ih =>
    intro i n s
    by_cases hi : 10 < i
    · by_cases he : 1000000 ≤ elapsed (n + 1)
      · rw [drainGo_cons_break elapsed u rest i n s hi he]; simp
      · rw [drainGo_cons_sample elapsed u rest i n s hi he]
        have := ih (i - 10 + 1) (n + 1) (apply_server_update s u)
        simp only [List.mem_cons] at this ⊢
        tauto
    · rw [drainGo_cons_nosample elapsed u rest i n s hi]
      have := ih (i + 1) (n + 1) (apply_server_update s u)
      simp only [List.mem_cons] at this ⊢
      tauto

theorem update_thread_pending_bounded (lr : ChunkPos → LoadResult)
    (lg : ChunkPos → Nat) (quit : Nat → Bool) (inp : Nat → IterInput) :
    ∀ (fuel k : Nat) (s : SurState),
      s.pending.length ≤ MAX_OUTSTANDING_TERRAIN_REQUESTS →
      ∀ t ∈ (update_thread lr lg fuel quit inp k s).2.1,
        t.pending.length ≤ MAX_OUTSTANDING_TERRAIN_REQUESTS := by
  intro fuel
  induction fuel with
  | zero => intro k s _ t ht; simp [update_thread] at ht
  | succ f ih =>
    intro k s h t ht
    cases hq : quit k with
    | true => simp [update_thread, hq] at ht
    | false =>
      simp only [update_thread, hq, Bool.false_eq_true, if_false,
        List.mem_cons] at ht
      have hd : ((process_server_updates (inp k).drainElapsed (inp k).upds s).1).pending.length ≤
          MAX_OUTSTANDING_TERRAIN_REQUESTS :=
        le_trans
          (drainGo_pending_mono (inp k).drainElapsed (inp k).upds 0 0 s _
            (drainGo_final_mem (inp k).drainElapsed (inp k).upds 0 0 s)) h
      have hu : ((update_surroundings lr lg (inp k).surElapsed (inp k).entries
          (process_server_updates (inp k).drainElapsed (inp k).upds s).1).1).pending.length ≤
          MAX_OUTSTANDING_TERRAIN_REQUESTS :=
        surGo_pending_bounded lr lg (inp k).surElapsed (inp k).entries 0 0 _ hd _
          (surGo_final_mem lr lg (inp k).surElapsed (inp k).entries 0 0 _)
      rcases ht with ht | ht | ht | ht
      · exact ht ▸ hd
      · exact ht ▸ hu
      · exact ht ▸ hu
      · exact ih (k + 1) _ hu t ht

/-- C4: the pending terrain-request set never exceeds
`MAX_OUTSTANDING_TERRAIN_REQUESTS` at any point of the update cycle: the
surroundings loop compares the set's size against the limit before taking
each entry and stops the phase entirely once the limit is reached, each
processed entry inserts at most one pair, the drain phase only removes
pairs, and the voxel phase does not touch the set. -/
theorem pending_requests_bounded (lr : ChunkPos → LoadResult)
    (lg : ChunkPos → Nat) (sElapsed dElapsed : Nat → Nat)
    (entries : List (ChunkPos × LoadType)) (upds : List ServerUpd)
    (fuel k : Nat) (quit : Nat → Bool) (inp : Nat → IterInput) (s : SurState)
    (h0 : s.pending.length ≤ MAX_OUTSTANDING_TERRAIN_REQUESTS) :
    (∀ t ∈ s :: (update_surroundings lr lg sElapsed entries s).2.1,
        t.pending.length ≤ MAX_OUTSTANDING_TERRAIN_REQUESTS) ∧
      (∀ t ∈ s :: (process_server_updates dElapsed upds s).2.1,
        t.pending.length ≤ MAX_OUTSTANDING_TERRAIN_REQUESTS) ∧
      ∀ t ∈ (update_thread lr lg fuel quit inp k s).2.1,
        t.pending.length ≤ MAX_OUTSTANDING_TERRAIN_REQUESTS := by
  refine ⟨?_, ?_, ?_⟩
  · exact surGo_pending_bounded lr lg sElapsed entries 0 0 s h0
  · intro t ht
    exact le_trans (drainGo_pending_mono dElapsed upds 0 0 s t ht) h0
  · exact update_thread_pending_bounded lr lg quit inp fuel k s h0

theorem pending_requests_bounded_witness :
    (SurState.mk [] []).pending.length ≤ MAX_OUTSTANDING_TERRAIN_REQUESTS ∧
      ((∀ t ∈ SurState.mk [] [] ::
          (update_surroundings (fun _ => LoadResult.ChunkMissing) (fun _ => 0)
            (fun _ => 0) [(((0 : Int), (0 : Int), (0 : Int)), LoadType.Load)]
            (SurState.mk [] [])).2.1,
          t.pending.length ≤ MAX_OUTSTANDING_TERRAIN_REQUESTS) ∧
        (∀ t ∈ SurState.mk [] [] ::
            (process_server_updates (fun _ => 0) [ServerUpd.other]
              (SurState.mk [] [])).2.1,
          t.pending.length ≤ MAX_OUTSTANDING_TERRAIN_REQUESTS) ∧
        ∀ t ∈ (update_thread (fun _ => LoadResult.ChunkMissing) (fun _ => 0) 1
            (fun _ => false)
            (fun _ => IterInput.mk [ServerUpd.other] (fun _ => 0)
              [(((0 : Int), (0 : Int), (0 : Int)), LoadType.Load)] (fun _ => 0))
            0 (SurState.mk [] [])).2.1,
          t.pending.length ≤ MAX_OUTSTANDING_TERRAIN_REQUESTS) :=
  ⟨by decide,
    pending_requests_bounded (fun _ => LoadResult.ChunkMissing) (fun _ => 0)
      (fun _ => 0) (fun _ => 0)
      [(((0 : Int), (0 : Int), (0 : Int)), LoadType.Load)] [ServerUpd.other]
      1 0 (fun _ => false)
      (fun _ => IterInput.mk [ServerUpd.other] (fun _ => 0)
        [(((0 : Int), (0 : Int), (0 : Int)), LoadType.Load)] (fun _ => 0))
      (SurState.mk [] []) (by decide)⟩

theorem surGo_count_of_pending (lr : ChunkPos → LoadResult)
    (lg : ChunkPos → Nat) (elapsed : Nat → Nat) (pair : ReqPair) :
    ∀ (entries : List (ChunkPos × LoadType)) (i n : Nat) (s : SurState),
      pair ∈ s.pending →
      ((surGo lr lg elapsed entries i n s).1).msgs.count pair =
        s.msgs.count pair := by
  intro entries
  induction entries with
  | nil => intro i n s _; simp [surGo]
  | cons e rest ih =>
    intro i n s h
    obtain ⟨hc, hm⟩ := processEntry_count lr lg s e pair h
    by_cases hg : MAX_OUTSTANDING_TERRAIN_REQUESTS ≤ s.pending.length
    · rw [surGo_cons_guard lr lg elapsed e rest i n s hg]
    · by_cases hi : 10 ≤ i
      · by_cases he : 1000000 ≤ elapsed (n + 1)
        · rw [surGo_cons_break lr lg elapsed e rest i n s hg hi he]
          exact hc
        · rw [surGo_cons_sample lr lg elapsed e rest i n s hg hi he]
          exact (ih (i - 10 + 1) (n + 1) (processEntry lr lg s e) hm).trans hc
      · rw [surGo_cons_nosample lr lg elapsed e rest i n s hg hi]
        exact (ih (i + 1) (n + 1) (processEntry lr lg s e) hm).trans hc

/-- C5: while a (chunk, lg_voxel_size) pair is already pending, a further
ChunkMissing result for the same pair is a silent no-op — the state is
unchanged, no outbound RequestChunk message is emitted, and across the
whole phase the number of outbound messages for that pair does not
grow. -/
theorem duplicate_request_suppressed (lr : ChunkPos → LoadResult)
    (lg : ChunkPos → Nat) (s : SurState) (pos : ChunkPos) (lt : LoadType)
    (hlt : lt = LoadType.Load ∨ lt = LoadType.Downgrade)
    (hres : lr pos = LoadResult.ChunkMissing)
    (hmem : (pos, lg pos) ∈ s.pending) :
    processEntry lr lg s (pos, lt) = s ∧
      ∀ (elapsed : Nat → Nat) (entries : List (ChunkPos × LoadType)) (i n : Nat),
        ((surGo lr lg elapsed entries i n s).1).msgs.count (pos, lg pos) =
          s.msgs.count (pos, lg pos) := by
  constructor
  · rcases hlt with hlt | hlt <;> subst hlt <;> simp [processEntry, hres, hmem]
  · intro elapsed entries i n
    exact surGo_count_of_pending lr lg elapsed (pos, lg pos) entries i n s hmem

theorem duplicate_request_suppressed_witness :
    ((LoadType.Load = LoadType.Load ∨ LoadType.Load = LoadType.Downgrade) ∧
        (fun _ : ChunkPos => LoadResult.ChunkMissing) ((0 : Int), (0 : Int), (0 : Int)) =
          LoadResult.ChunkMissing ∧
        ((((0 : Int), (0 : Int), (0 : Int)), 0) : ReqPair) ∈
          (SurState.mk [((((0 : Int), (0 : Int), (0 : Int)), 0))] []).pending) ∧
      (processEntry (fun _ => LoadResult.ChunkMissing) (fun _ => 0)
          (SurState.mk [((((0 : Int), (0 : Int), (0 : Int)), 0))] [])
          ((((0 : Int), (0 : Int), (0 : Int))), LoadType.Load) =
        SurState.mk [((((0 : Int), (0 : Int), (0 : Int)), 0))] [] ∧
      ∀ (elapsed : Nat → Nat) (entries : List (ChunkPos × LoadType)) (i n : Nat),
        ((surGo (fun _ => LoadResult.ChunkMissing) (fun _ => 0) elapsed entries i n
            (SurState.mk [((((0 : Int), (0 : Int), (0 : Int)), 0))] [])).1).msgs.count
            ((((0 : Int), (0 : Int), (0 : Int)), 0)) =
          (SurState.mk [((((0 : Int), (0 : Int), (0 : Int)), 0))] []).msgs.count
            ((((0 : Int), (0 : Int), (0 : Int)), 0))) :=
  ⟨⟨Or.inl rfl, rfl, by decide⟩,
    duplicate_request_suppressed (fun _ => LoadResult.ChunkMissing) (fun _ => 0)
      (SurState.mk [((((0 : Int), (0 : Int), (0 : Int)), 0))] [])
      ((0 : Int), (0 : Int), (0 : Int)) LoadType.Load (Or.inl rfl) rfl (by decide)⟩

theorem mem_dropLast_cons {x a : Nat} {l : List Nat}
    (h : x ∈ (a :: l).dropLast) : x = a ∨ x ∈ l.dropLast := by
  cases l with
  | nil => simp at h
  | cons b l2 =>
    rw [List.dropLast_cons₂] at h
    exact List.mem_cons.mp h

theorem surGo_samples_head (lr : ChunkPos → LoadResult) (lg : ChunkPos → Nat)
    (elapsed : Nat → Nat) :
    ∀ (entries : List (ChunkPos × LoadType)) (i n : Nat) (s : SurState),
      i ≤ 10 →
      ∀ h, ((surGo lr lg elapsed entries i n s).2.2).head? = some h →
        h = n + (11 - i) := by
  intro entries
  induction entries with
  | nil => intro i n s _ h hh; simp [surGo] at hh
  | cons e rest ih =>
    intro i n s hle h hh
    by_cases hg : MAX_OUTSTANDING_TERRAIN_REQUESTS ≤ s.pending.length
    · rw [surGo_cons_guard lr lg elapsed e rest i n s hg] at hh
      simp at hh
    · by_cases hi : 10 ≤ i
      · by_cases he : 1000000 ≤ elapsed (n + 1)
        · rw [surGo_cons_break lr lg elapsed e rest i n s hg hi he] at hh
          simp only [List.head?_cons, Option.some.injEq] at hh
          omega
        · rw [surGo_cons_sample lr lg elapsed e rest i n s hg hi he] at hh
          simp only [List.head?_cons, Option.some.injEq] at hh
          omega
      · rw [surGo_cons_nosample lr lg elapsed e rest i n s hg hi] at hh
        have := ih (i + 1) (n + 1) (processEntry lr lg s e) (by omega) h hh
        omega

theorem surGo_samples_chain (lr : ChunkPos → LoadResult) (lg : ChunkPos → Nat)
    (elapsed : Nat → Nat) :
    ∀ (entries : List (ChunkPos × LoadType)) (i n : Nat) (s : SurState),
      i ≤ 10 →
      ((surGo lr lg elapsed entries i n s).2.2).Chain' (fun a b => b = a + 10) := by
  intro entries
  induction entries with
  | nil => intro i n s _; simp [surGo]
  | cons e rest ih =>
    intro i n s hle
    by_cases hg : MAX_OUTSTANDING_TERRAIN_REQUESTS ≤ s.pending.length
    · rw [surGo_cons_guard lr lg elapsed e rest i n s hg]; simp
    · by_cases hi : 10 ≤ i
      · by_cases he : 1000000 ≤ elapsed (n + 1)
        · rw [surGo_cons_break lr lg elapsed e rest i n s hg hi he]; simp
        · rw [surGo_cons_sample lr lg elapsed e rest i n s hg hi he]
          refine List.chain'_cons'.mpr ⟨?_, ih (i - 10 + 1) (n + 1) _ (by omega)⟩
          intro y hy
          have := surGo_samples_head lr lg elapsed rest (i - 10 + 1) (n + 1)
            (processEntry lr lg s e) (by omega) y
            (by cases hq : ((surGo lr lg elapsed rest (i - 10 + 1) (n + 1)
              (processEntry lr lg s e)).2.2).head? with
              | none => rw [hq] at hy; exact absurd hy (by simp)
              | some z =>
                rw [hq] at hy
                simp only [Option.mem_def, Option.some.injEq] at hy
                rw [hy])
          omega
      · rw [surGo_cons_nosample lr lg elapsed e rest i n s hg hi]
        exact ih (i + 1) (n + 1) (processEntry lr lg s e) (by omega)

theorem surGo_samples_dropLast (lr : ChunkPos → LoadResult)
    (lg : ChunkPos → Nat) (elapsed : Nat → Nat) :
    ∀ (entries : List (ChunkPos × LoadType)) (i n : Nat) (s : SurState),
      ∀ x ∈ ((surGo lr lg elapsed entries i n s).2.2).dropLast,
        elapsed x < 1000000 := by
  intro entries
  induction entries with
  | nil => intro i n s x hx; simp [surGo] at hx
  | cons e rest ih =>
    intro i n s x hx
    by_cases hg : MAX_OUTSTANDING_TERRAIN_REQUESTS ≤ s.pending.length
    · rw [surGo_cons_guard lr lg elapsed e rest i n s hg] at hx; simp at hx
    · by_cases hi : 10 ≤ i
      · by_cases he : 1000000 ≤ elapsed (n + 1)
        · rw [surGo_cons_break lr lg elapsed e rest i n s hg hi he] at hx
          simp at hx
        · rw [surGo_cons_sample lr lg elapsed e rest i n s hg hi he] at hx
          rcases mem_dropLast_cons hx with hx | hx
          · subst hx; omega
          · exact ih (i - 10 + 1) (n + 1) (processEntry lr lg s e) x hx
      · rw [surGo_cons_nosample lr lg elapsed e rest i n s hg hi] at hx
        exact ih (i + 1) (n + 1) (processEntry lr lg s e) x hx

theorem surGo_stop_at_budget (lr : ChunkPos → LoadResult)
    (lg : ChunkPos → Nat) (elapsed : Nat → Nat) :
    ∀ (entries : List (ChunkPos × LoadType)) (i n : Nat) (s : SurState) (m : Nat),
      ((surGo lr lg elapsed entries i n s).2.2).getLast? = some m →
      1000000 ≤ elapsed m →
      ((surGo lr lg elapsed entries i n s).2.1).length + n = m := by
  intro entries
  induction entries with
  | nil => intro i n s m hm _; simp [surGo] at hm
  | cons e rest ih =>
    intro i n s m hm hb
    by_cases hg : MAX_OUTSTANDING_TERRAIN_REQUESTS ≤ s.pending.length
    · rw [surGo_cons_guard lr lg elapsed e rest i n s hg] at hm
      simp at hm
    · by_cases hi : 10 ≤ i
      · by_cases he : 1000000 ≤ elapsed (n + 1)
        · rw [surGo_cons_break lr lg elapsed e rest i n s hg hi he] at hm ⊢
          simp only [List.getLast?_singleton, Option.some.injEq] at hm
          simp only [List.length_singleton]
          omega
        · rw [surGo_cons_sample lr lg elapsed e rest i n s hg hi he] at hm ⊢
          cases hq : (surGo lr lg elapsed rest (i - 10 + 1) (n + 1)
              (processEntry lr lg s e)).2.2 with
          | nil =>
            rw [hq] at hm
            simp only [List.getLast?_singleton, Option.some.injEq] at hm
            subst hm
            omega
          | cons z zs =>
            rw [hq] at hm
            rw [List.getLast?_cons_cons] at hm
            have := ih (i - 10 + 1) (n + 1) (processEntry lr lg s e) m
              (by rw [hq]; exact hm) hb
            simp only [List.length_cons]
            omega
      · rw [surGo_cons_nosample lr lg elapsed e rest i n s hg hi] at hm ⊢
        have := ih (i + 1) (n + 1) (processEntry lr lg s e) m hm hb
        simp only [List.length_cons]
        omega

theorem surGo_runs_to_exhaustion (lr : ChunkPos → LoadResult)
    (lg : ChunkPos → Nat) (elapsed : Nat → Nat) :
    ∀ (entries : List (ChunkPos × LoadType)) (i n : Nat) (s : SurState),
      (∀ x ∈ (surGo lr lg elapsed entries i n s).2.2, elapsed x < 1000000) →
      (∀ t ∈ s :: (surGo lr lg elapsed entries i n s).2.1,
        t.pending.length < MAX_OUTSTANDING_TERRAIN_REQUESTS) →
      ((surGo lr lg elapsed entries i n s).2.1).length = entries.length := by
  intro entries
  induction entries with
  | nil => intro i n s _ _; simp [surGo]
  | cons e rest ih =>
    intro i n s hx ht
    by_cases hg : MAX_OUTSTANDING_TERRAIN_REQUESTS ≤ s.pending.length
    · rw [surGo_cons_guard lr lg elapsed e rest i n s hg] at ht
      exact absurd (ht s (by simp)) (by omega)
    · by_cases hi : 10 ≤ i
      · by_cases he : 1000000 ≤ elapsed (n + 1)
        · rw [surGo_cons_break lr lg elapsed e rest i n s hg hi he] at hx
          exact absurd (hx (n + 1) (by simp)) (by omega)
        · rw [surGo_cons_sample lr lg elapsed e rest i n s hg hi he] at hx ht ⊢
          have := ih (i - 10 + 1) (n + 1) (processEntry lr lg s e)
            (fun x hxm => hx x (List.mem_cons_of_mem _ hxm))
            (fun t htm => ht t (List.mem_cons_of_mem _ htm))
          simp only [List.length_cons, this]
      · rw [surGo_cons_nosample lr lg elapsed e rest i n s hg hi] at hx ht ⊢
        have := ih (i + 1) (n + 1) (processEntry lr lg s e) hx
          (fun t htm => ht t (List.mem_cons_of_mem _ htm))
        simp only [List.length_cons, this]

theorem drainGo_samples_head (elapsed : Nat → Nat) :
    ∀ (upds : List ServerUpd) (i n : Nat) (s : SurState),
      i ≤ 11 →
      ∀ h, ((drainGo elapsed upds i n s).2.2).head? = some h →
        h = n + (12 - i) := by
  intro upds
  induction upds with
  | nil => intro i n s _ h hh; simp [drainGo] at hh
  | cons u rest ih =>
    intro i n s hle h hh
    by_cases hi : 10 < i
    · by_cases he : 1000000 ≤ elapsed (n + 1)
      · rw [drainGo_cons_break elapsed u rest i n s hi he] at hh
        simp only [List.head?_cons, Option.some.injEq] at hh
        omega
      · rw [drainGo_cons_sample elapsed u rest i n s hi he] at hh
        simp only [List.head?_cons, Option.some.injEq] at hh
        omega
    · rw [drainGo_cons_nosample elapsed u rest i n s hi] at hh
      have := ih (i + 1) (n + 1) (apply_server_update s u) (by omega) h hh
      omega

theorem drainGo_samples_chain (elapsed : Nat → Nat) :
    ∀ (upds : List ServerUpd) (i n : Nat) (s : SurState),
      i ≤ 11 →
      ((drainGo elapsed upds i n s).2.2).Chain' (fun a b => b = a + 10) := by
  intro upds
  induction upds with
  | nil => intro i n s _; simp [drainGo]
  | cons u rest ih =>
    intro i n s hle
    by_cases hi : 10 < i
    · by_cases he : 1000000 ≤ elapsed (n + 1)
      · rw [drainGo_cons_break elapsed u rest i n s hi he]; simp
      · rw [drainGo_cons_sample elapsed u rest i n s hi he]
        refine List.chain'_cons'.mpr ⟨?_, ih (i - 10 + 1) (n + 1) _ (by omega)⟩
        intro y hy
        have := drainGo_samples_head elapsed rest (i - 10 + 1) (n + 1)
          (apply_server_update s u) (by omega) y
          (by cases hq : ((drainGo elapsed rest (i - 10 + 1) (n + 1)
            (apply_server_update s u)).2.2).head? with
            | none => rw [hq] at hy; exact absurd hy (by simp)
            | some z =>
              rw [hq] at hy
              simp only [Option.mem_def, Option.some.injEq] at hy
              rw [hy])
        omega
    · rw [drainGo_cons_nosample elapsed u rest i n s hi]
      exact ih (i + 1) (n + 1) (apply_server_update s u) (by omega)

theorem drainGo_samples_dropLast (elapsed : Nat → Nat) :
    ∀ (upds : List ServerUpd) (i n : Nat) (s : SurState),
      ∀ x ∈ ((drainGo elapsed upds i n s).2.2).dropLast, elapsed x < 1000000 := by
  intro upds
  induction upds with
  | nil => intro i n s x hx; simp [drainGo] at hx
  | cons u rest ih =>
    intro i n s x hx
    by_cases hi : 10 < i
    · by_cases he : 1000000 ≤ elapsed (n + 1)
      · rw [drainGo_cons_break elapsed u rest i n s hi he] at hx
        simp at hx
      · rw [drainGo_cons_sample elapsed u rest i n s hi he] at hx
        rcases mem_dropLast_cons hx with hx | hx
        · subst hx; omega
        · exact ih (i - 10 + 1) (n + 1) (apply_server_update s u) x hx
    · rw [drainGo_cons_nosample elapsed u rest i n s hi] at hx
      exact ih (i + 1) (n + 1) (apply_server_update s u) x hx

theorem drainGo_stop_at_budget (elapsed : Nat → Nat) :
    ∀ (upds : List ServerUpd) (i n : Nat) (s : SurState) (m : Nat),
      ((drainGo elapsed upds i n s).2.2).getLast? = some m →
      1000000 ≤ elapsed m →
      ((drainGo elapsed upds i n s).2.1).length + n = m := by
  intro upds
  induction upds with
  | nil => intro i n s m hm _; simp [drainGo] at hm
  | cons u rest ih =>
    intro i n s m hm hb
    by_cases hi : 10 < i
    · by_cases he : 1000000 ≤ elapsed (n + 1)
      · rw [drainGo_cons_break elapsed u rest i n s hi he] at hm ⊢
        simp only [List.getLast?_singleton, Option.some.injEq] at hm
        simp only [List.length_singleton]
        omega
      · rw [drainGo_cons_sample elapsed u rest i n s hi he] at hm ⊢
        cases hq : (drainGo elapsed rest (i - 10 + 1) (n + 1)
            (apply_server_update s u)).2.2 with
        | nil =>
          rw [hq] at hm
          simp only [List.getLast?_singleton, Option.some.injEq] at hm
          subst hm
          omega
        | cons z zs =>
          rw [hq] at hm
          rw [List.getLast?_cons_cons] at hm
          have := ih (i - 10 + 1) (n + 1) (apply_server_update s u) m
            (by rw [hq]; exact hm) hb
          simp only [List.length_cons]
          omega
    · rw [drainGo_cons_nosample elapsed u rest i n s hi] at hm ⊢
      have := ih (i + 1) (n + 1) (apply_server_update s u) m hm hb
      simp only [List.length_cons]
      omega

theorem drainGo_runs_to_exhaustion (elapsed : Nat → Nat) :
    ∀ (upds : List ServerUpd) (i n : Nat) (s : SurState),
      (∀ x ∈ (drainGo elapsed upds i n s).2.2, elapsed x < 1000000) →
      ((drainGo elapsed upds i n s).2.1).length = upds.length := by
  intro upds
  induction upds with
  | nil => intro i n s _; simp [drainGo]
  | cons u rest ih =>
    intro i n s hx
    by_cases hi : 10 < i
    · by_cases he : 1000000 ≤ elapsed (n + 1)
      · rw [drainGo_cons_break elapsed u rest i n s hi he] at hx
        exact absurd (hx (n + 1) (by simp)) (by omega)
      · rw [drainGo_cons_sample elapsed u rest i n s hi he] at hx ⊢
        have := ih (i - 10 + 1) (n + 1) (apply_server_update s u)
          (fun x hxm => hx x (List.mem_cons_of_mem _ hxm))
        simp only [List.length_cons, this]
    · rw [drainGo_cons_nosample elapsed u rest i n s hi] at hx ⊢
      have := ih (i + 1) (n + 1) (apply_server_update s u) hx
      simp only [List.length_cons, this]

/-- C8 counterexample: a surroundings phase in which the wall clock is
never sampled (so the budget is never observed exceeded) still stops with
its input not exhausted — the outstanding-request backpressure limit stops
it after the first of two entries. -/
theorem budget_exhaustion_claim_fails :
    (update_surroundings (fun _ => LoadResult.ChunkMissing) (fun _ => 0)
        (fun _ => 0)
        [(((0 : Int), (0 : Int), (0 : Int)), LoadType.Load),
          (((1 : Int), (0 : Int), (0 : Int)), LoadType.Load)]
        (SurState.mk [] [])).2.2 = [] ∧
      ((update_surroundings (fun _ => LoadResult.ChunkMissing) (fun _ => 0)
          (fun _ => 0)
          [(((0 : Int), (0 : Int), (0 : Int)), LoadType.Load),
            (((1 : Int), (0 : Int), (0 : Int)), LoadType.Load)]
          (SurState.mk [] [])).2.1).length = 1 ∧
      [(((0 : Int), (0 : Int), (0 : Int)), LoadType.Load),
        (((1 : Int), (0 : Int), (0 : Int)), LoadType.Load)].length = 2 := by
  decide

/-- C8 (amended): both phases sample the wall clock only every 10 loop
iterations (consecutive sample indices differ by exactly 10), every sample
the phase continued past was under the 1 ms budget, a phase that observes
an over-budget sample stops at exactly that iteration, and when no sample
is over budget the drain phase consumes all queued updates while the
surroundings phase consumes its whole enumeration unless the
outstanding-request backpressure limit stops it. -/
theorem time_budget_sampling (lr : ChunkPos → LoadResult)
    (lg : ChunkPos → Nat) (sElapsed dElapsed : Nat → Nat)
    (entries : List (ChunkPos × LoadType)) (upds : List ServerUpd)
    (s d : SurState) :
    ((update_surroundings lr lg sElapsed entries s).2.2).Chain'
        (fun a b => b = a + 10) ∧
      (∀ x ∈ ((update_surroundings lr lg sElapsed entries s).2.2).dropLast,
        sElapsed x < 1000000) ∧
      (∀ m, ((update_surroundings lr lg sElapsed entries s).2.2).getLast? = some m →
        1000000 ≤ sElapsed m →
        ((update_surroundings lr lg sElapsed entries s).2.1).length = m) ∧
      ((∀ x ∈ (update_surroundings lr lg sElapsed entries s).2.2,
          sElapsed x < 1000000) →
        (∀ t ∈ s :: (update_surroundings lr lg sElapsed entries s).2.1,
          t.pending.length < MAX_OUTSTANDING_TERRAIN_REQUESTS) →
        ((update_surroundings lr lg sElapsed entries s).2.1).length =
          entries.length) ∧
      ((process_server_updates dElapsed upds d).2.2).Chain'
        (fun a b => b = a + 10) ∧
      (∀ x ∈ ((process_server_updates dElapsed upds d).2.2).dropLast,
        dElapsed x < 1000000) ∧
      (∀ m, ((process_server_updates dElapsed upds d).2.2).getLast? = some m →
        1000000 ≤ dElapsed m →
        ((process_server_updates dElapsed upds d).2.1).length = m) ∧
      ((∀ x ∈ (process_server_updates dElapsed upds d).2.2,
          dElapsed x < 1000000) →
        ((process_server_updates dElapsed upds d).2.1).length = upds.length) := by
  refine ⟨surGo_samples_chain lr lg sElapsed entries 0 0 s (by omega),
    surGo_samples_dropLast lr lg sElapsed entries 0 0 s, ?_,
    surGo_runs_to_exhaustion lr lg sElapsed entries 0 0 s,
    drainGo_samples_chain dElapsed upds 0 0 d (by omega),
    drainGo_samples_dropLast dElapsed upds 0 0 d, ?_,
    drainGo_runs_to_exhaustion dElapsed upds 0 0 d⟩
  · intro m hm hb
    have := surGo_stop_at_budget lr lg sElapsed entries 0 0 s m hm hb
    simpa [update_surroundings] using this
  · intro m hm hb
    have := drainGo_stop_at_budget dElapsed upds 0 0 d m hm hb
    simpa [process_server_updates] using this

theorem time_budget_sampling_witness :
    ((update_surroundings (fun _ => LoadResult.Success) (fun _ => 0)
        (fun _ => 0) [] (SurState.mk [] [])).2.2).Chain'
        (fun a b => b = a + 10) ∧
      (∀ x ∈ ((update_surroundings (fun _ => LoadResult.Success) (fun _ => 0)
          (fun _ => 0) [] (SurState.mk [] [])).2.2).dropLast,
        (fun _ : Nat => (0 : Nat)) x < 1000000) ∧
      (∀ m, ((update_surroundings (fun _ => LoadResult.Success) (fun _ => 0)
          (fun _ => 0) [] (SurState.mk [] [])).2.2).getLast? = some m →
        1000000 ≤ (fun _ : Nat => (0 : Nat)) m →
        ((update_surroundings (fun _ => LoadResult.Success) (fun _ => 0)
          (fun _ => 0) [] (SurState.mk [] [])).2.1).length = m) ∧
      ((∀ x ∈ (update_surroundings (fun _ => LoadResult.Success) (fun _ => 0)
          (fun _ => 0) [] (SurState.mk [] [])).2.2,
          (fun _ : Nat => (0 : Nat)) x < 1000000) →
        (∀ t ∈ SurState.mk [] [] ::
            (update_surroundings (fun _ => LoadResult.Success) (fun _ => 0)
              (fun _ => 0) [] (SurState.mk [] [])).2.1,
          t.pending.length < MAX_OUTSTANDING_TERRAIN_REQUESTS) →
        ((update_surroundings (fun _ => LoadResult.Success) (fun _ => 0)
          (fun _ => 0) [] (SurState.mk [] [])).2.1).length =
          ([] : List (ChunkPos × LoadType)).length) ∧
      ((process_server_updates (fun _ => 0) [ServerUpd.other]
          (SurState.mk [] [])).2.2).Chain' (fun a b => b = a + 10) ∧
      (∀ x ∈ ((process_server_updates (fun _ => 0) [ServerUpd.other]
          (SurState.mk [] [])).2.2).dropLast,
        (fun _ : Nat => (0 : Nat)) x < 1000000) ∧
      (∀ m, ((process_server_updates (fun _ => 0) [ServerUpd.other]
          (SurState.mk [] [])).2.2).getLast? = some m →
        1000000 ≤ (fun _ : Nat => (0 : Nat)) m →
        ((process_server_updates (fun _ => 0) [ServerUpd.other]
          (SurState.mk [] [])).2.1).length = m) ∧
      ((∀ x ∈ (process_server_updates (fun _ => 0) [ServerUpd.other]
          (SurState.mk [] [])).2.2,
          (fun _ : Nat => (0 : Nat)) x < 1000000) →
        ((process_server_updates (fun _ => 0) [ServerUpd.other]
          (SurState.mk [] [])).2.1).length = [ServerUpd.other].length) :=
  time_budget_sampling (fun _ => LoadResult.Success) (fun _ => 0) (fun _ => 0)
    (fun _ => 0) [] [ServerUpd.other] (SurState.mk [] []) (SurState.mk [] [])

theorem update_thread_unfold (lr : ChunkPos → LoadResult)
    (lg : ChunkPos → Nat) (quit : Nat → Bool) (inp : Nat → IterInput) :
    ∀ (fuel k : Nat) (s : SurState),
      (update_thread lr lg fuel quit inp k s).1 =
          phaseTrace k (numIters quit fuel k) ∧
        (update_thread lr lg fuel quit inp k s).2.1 =
          stateTrace lr lg inp k s (numIters quit fuel k) ∧
        ∀ j, j < numIters quit fuel k → quit (k + j) = false := by
  intro fuel
  induction fuel with
  | zero =>
    intro k s
    refine ⟨rfl, rfl, ?_⟩
    intro j hj
    simp [numIters] at hj
  | succ f ih =>
    intro k s
    cases hq : quit k with
    | true =>
      refine ⟨?_, ?_, ?_⟩
      · simp [update_thread, numIters, hq, phaseTrace]
      · simp [update_thread, numIters, hq, stateTrace]
      · intro j hj
        simp [numIters, hq] at hj
    | false =>
      obtain ⟨ih1, ih2, ih3⟩ := ih (k + 1) (iterOnce lr lg (inp k) s).2.2
      refine ⟨?_, ?_, ?_⟩
      · simp [update_thread, numIters, hq, phaseTrace, ih1]
      · simp [update_thread, numIters, hq, stateTrace, ih2]
      · intro j hj
        simp only [numIters, hq, Bool.false_eq_true, if_false] at hj
        cases j with
        | zero => simpa using hq
        | succ j' =>
          have h2 := ih3 j' (by omega)
          have harith : k + (j' + 1) = k + 1 + j' := by omega
          rw [harith]
          exact h2

/-- C7: in every iteration of the update loop that does not observe the
quit flag, the three phases run strictly in order — drain server updates,
recompute surroundings, tick voxel updates — with no phase of a later
iteration beginning before the current iteration completes, and the
surroundings phase of each iteration consumes exactly the state produced
by the drain phase of that same iteration. -/
theorem phases_run_in_order (lr : ChunkPos → LoadResult)
    (lg : ChunkPos → Nat) (fuel : Nat) (quit : Nat → Bool)
    (inp : Nat → IterInput) (k : Nat) (s : SurState) :
    (update_thread lr lg fuel quit inp k s).1 =
        phaseTrace k (numIters quit fuel k) ∧
      (update_thread lr lg fuel quit inp k s).2.1 =
        stateTrace lr lg inp k s (numIters quit fuel k) ∧
      (∀ j, j < numIters quit fuel k → quit (k + j) = false) ∧
      ∀ j, (iterOnce lr lg (inp (k + j)) (startState lr lg inp k s j)).2.1 =
        (update_surroundings lr lg (inp (k + j)).surElapsed (inp (k + j)).entries
          (iterOnce lr lg (inp (k + j)) (startState lr lg inp k s j)).1).1 := by
  obtain ⟨h1, h2, h3⟩ := update_thread_unfold lr lg quit inp fuel k s
  exact ⟨h1, h2, h3, fun j => rfl⟩

theorem phases_run_in_order_witness :
    (update_thread (fun _ => LoadResult.Success) (fun _ => 0) 2
        (fun _ => false)
        (fun _ => IterInput.mk [] (fun _ => 0) [] (fun _ => 0)) 0
        (SurState.mk [] [])).1 =
      phaseTrace 0 (numIters (fun _ => false) 2 0) :=
  (phases_run_in_order (fun _ => LoadResult.Success) (fun _ => 0) 2
    (fun _ => false) (fun _ => IterInput.mk [] (fun _ => 0) [] (fun _ => 0)) 0
    (SurState.mk [] [])).1

/-!
## Claims about view updates
-/

theorem applyUpdateList_eq_foldl :
    ∀ (ups : List ViewUpdate) (v : View),
      applyUpdateList v ups = ups.foldl apply_client_to_view v := by
  intro ups
  induction ups with
  | nil => intro v; simp [applyUpdateList]
  | cons u us ih => intro v; simp [applyUpdateList, ih]

/-- C9: applying an `Atomic` batch to the view has exactly the same effect
as applying each of its sub-updates one after another in list order. -/
theorem atomic_update_is_sequential (v : View) (ups : List ViewUpdate) :
    apply_client_to_view v (ViewUpdate.Atomic ups) =
      ups.foldl apply_client_to_view v := by
  have h : apply_client_to_view v (ViewUpdate.Atomic ups) = applyUpdateList v ups := by
    simp [apply_client_to_view]
  rw [h]
  exact applyUpdateList_eq_foldl ups v

theorem atomic_update_is_sequential_witness :
    apply_client_to_view (View.mk 0 [] [] InputMode.Camera 0 [] [] [] [])
        (ViewUpdate.Atomic [ViewUpdate.MoveCamera 3]) =
      [ViewUpdate.MoveCamera 3].foldl apply_client_to_view
        (View.mk 0 [] [] InputMode.Camera 0 [] [] [] []) :=
  atomic_update_is_sequential (View.mk 0 [] [] InputMode.Camera 0 [] [] [] [])
    [ViewUpdate.MoveCamera 3]

end Playform
